import Mathlib

/-!
Verification of the multi-source company-profile pipeline
(news fallback chain, result cache, clinical-trial normalization,
EDGAR financial normalization, URL fetcher/archive).

Python values that flow through the pipeline are JSON-like dynamic
values; we embed them as the first-order type `JVal` below.  Lists and
objects are encoded cons-style so that decidable equality is derivable.
`requests` calls, the filesystem and the clock are modelled as explicit
inputs: an HTTP response is an `Except Unit JVal` (`.error` = transport
failure, HTTP error status, or a body that fails to parse as JSON), and
file stores are association lists.  Machine integers do not occur in the
code under verification.
-/

/-- JSON-like dynamic value (Python object) in first-order encoding:
`anil`/`acons` build arrays, `onil`/`ocons` build objects. -/
inductive JVal where
  | jnull : JVal
  | jbool (b : Bool) : JVal
  | jnum (n : Int) : JVal
  | jstr (s : String) : JVal
  | anil : JVal
  | acons (hd tl : JVal) : JVal
  | onil : JVal
  | ocons (key : String) (val tail : JVal) : JVal
  deriving DecidableEq, Repr, Inhabited

namespace JVal

/-- Build an array value from a Lean list. -/
def arr : List JVal → JVal
  | [] => .anil
  | x :: xs => .acons x (arr xs)

/-- Build an object value from a key/value list. -/
def obj : List (String × JVal) → JVal
  | [] => .onil
  | (k, v) :: kvs => .ocons k v (obj kvs)

/-- Is the value a Python dict? -/
def isObj : JVal → Bool
  | .onil => true
  | .ocons _ _ _ => true
  | _ => false

/-- Is the value a Python list? -/
def isArr : JVal → Bool
  | .anil => true
  | .acons _ _ => true
  | _ => false

/-- Python truthiness of a JSON value (`bool(v)`). -/
def truthy : JVal → Bool
  | .jnull => false
  | .jbool b => b
  | .jnum n => n != 0
  | .jstr s => s != ""
  | .anil => false
  | .acons _ _ => true
  | .onil => false
  | .ocons _ _ _ => true

/-- Python `a or b` on dynamic values. -/
def orV (a b : JVal) : JVal := if truthy a then a else b

/-- First binding for a key in an object spine (helper for `dict` access). -/
def lookups : JVal → String → Option JVal
  | .ocons k v rest, key => if k = key then some v else lookups rest key
  | _, _ => none

/-- Python `d.get(k)`: `None` when the key is absent; raises (`.error`)
when the receiver is not a dict. -/
def getE (v : JVal) (k : String) : Except Unit JVal :=
  if v.isObj then .ok ((lookups v k).getD .jnull) else .error ()

/-- Python `d.get(k, default)`. -/
def getDE (v : JVal) (k : String) (d : JVal) : Except Unit JVal :=
  if v.isObj then .ok ((lookups v k).getD d) else .error ()

/-- Python subscript `d[k]` on a dict: raises on a missing key or a
non-dict receiver. -/
def getKeyE (v : JVal) (k : String) : Except Unit JVal :=
  if v.isObj then
    match lookups v k with
    | some x => .ok x
    | none => .error ()
  else .error ()

/-- Elements of an array spine. -/
def elems : JVal → List JVal
  | .acons x xs => x :: elems xs
  | _ => []

/-- Python subscript `v[0]`: first element of a list, first character of
a string, error otherwise (including the empty list / empty string). -/
def index0E : JVal → Except Unit JVal
  | .acons x _ => .ok x
  | .jstr s =>
    match s.data with
    | [] => .error ()
    | c :: _ => .ok (.jstr (String.mk [c]))
  | _ => .error ()

/-- Python `v[:n]` followed by iteration: a list yields its first `n`
elements, a string its first `n` characters (as 1-char strings); any
other value raises. -/
def sliceIterE (v : JVal) (n : Nat) : Except Unit (List JVal) :=
  match v with
  | .acons _ _ => .ok ((elems v).take n)
  | .anil => .ok []
  | .jstr s => .ok ((s.data.take n).map fun c => .jstr (String.mk [c]))
  | _ => .error ()

/-- Python `for x in v`: a list yields elements, a string its characters,
a dict its keys; other values raise. -/
def iterE : JVal → Except Unit (List JVal)
  | .acons x xs => do pure (x :: (← iterE xs))
  | .anil => .ok []
  | .jstr s => .ok (s.data.map fun c => .jstr (String.mk [c]))
  | .onil => .ok []
  | .ocons k _ rest => do pure (.jstr k :: (← iterE rest))
  | _ => .error ()

/-- Python hashability: lists and dicts are unhashable. -/
def hashable (v : JVal) : Bool := !(v.isArr || v.isObj)

mutual
/-- Python `str(v)` for JSON values. -/
def pyStr : JVal → String
  | .jstr s => s
  | v => pyRepr v

/-- Python `repr(v)` for JSON values. -/
def pyRepr : JVal → String
  | .jnull => "None"
  | .jbool b => if b then "True" else "False"
  | .jnum n => toString n
  | .jstr s => "'" ++ s ++ "'"
  | .anil => "[]"
  | .acons x xs => "[" ++ pyRepr x ++ pyReprArrTail xs ++ "]"
  | .onil => "\x7b\x7d"
  | .ocons k v rest => "\x7b'" ++ k ++ "': " ++ pyRepr v ++ pyReprObjTail rest ++ "\x7d"

/-- Remaining elements of a list repr. -/
def pyReprArrTail : JVal → String
  | .acons x xs => ", " ++ pyRepr x ++ pyReprArrTail xs
  | _ => ""

/-- Remaining entries of a dict repr. -/
def pyReprObjTail : JVal → String
  | .ocons k v rest => ", '" ++ k ++ "': " ++ pyRepr v ++ pyReprObjTail rest
  | _ => ""
end

end JVal

open JVal

/-- Lowercase a string character-wise (Python `str.lower` on ASCII data). -/
def lowerStr (s : String) : String := String.mk (s.data.map Char.toLower)

/-- Boolean list-prefix test. -/
def isPrefixList : List Char → List Char → Bool
  | [], _ => true
  | _ :: _, [] => false
  | a :: as, b :: bs => a == b && isPrefixList as bs

/-- Boolean contiguous-sublist test. -/
def subList (needle : List Char) : List Char → Bool
  | [] => isPrefixList needle []
  | c :: rest => isPrefixList needle (c :: rest) || subList needle rest

/-- Model of Python `needle in hay` for strings. -/
def strContains (hay needle : String) : Bool := subList needle.data hay.data

/-- `clinical_trials._normalize_phase`: map messy phase labels into
canonical categories.  The source lowercases the input and tests
substrings in the order 1/2, 2/3, 1, 2, 3, 4, "not applicable". -/
def normalize_phase (rawPhase : String) : String :=
  if rawPhase = "" then "unknown"
  else
    if strContains (lowerStr rawPhase) "1/2" then "phase1_2"
    else if strContains (lowerStr rawPhase) "2/3" then "phase2_3"
    else if strContains (lowerStr rawPhase) "1" then "phase1"
    else if strContains (lowerStr rawPhase) "2" then "phase2"
    else if strContains (lowerStr rawPhase) "3" then "phase3"
    else if strContains (lowerStr rawPhase) "4" then "phase4"
    else if strContains (lowerStr rawPhase) "not applicable" then "not_applicable"
    else "unknown"

/-- The eight canonical phase labels. -/
def phaseEnum : List String :=
  ["phase1", "phase2", "phase3", "phase4", "phase1_2", "phase2_3",
   "not_applicable", "unknown"]

/-!  News article dictionaries.  Every article dict the news module
creates or reads uses a fixed universe of string keys, so we embed an
article as a record with one `JVal` field per key; an absent key is
`jnull`, which is exactly what Python `dict.get` returns for it.  -/

/-- A news-article dict.  Tier adapters set the first six fields; the
normalizer and enrichment pass use the remaining ones. -/
structure Article where
  title : JVal := .jnull
  url : JVal := .jnull
  source : JVal := .jnull
  snippet : JVal := .jnull
  published : JVal := .jnull
  raw : JVal := .jnull
  headline : JVal := .jnull
  summary : JVal := .jnull
  source_url : JVal := .jnull
  source_name : JVal := .jnull
  fetched : JVal := .jnull
  provenance : JVal := .jnull
  deriving DecidableEq, Repr, Inhabited

/-- Python truthiness of an optional credential string (`SERPAPI_KEY`,
`BING_KEY`): absent or empty means falsy. -/
def truthyKey : Option String → Bool
  | none => false
  | some s => s != ""

/-- `news_sources.fetch_news_serpapi`, body of the `try` block after the
HTTP request: pick the first truthy candidate list among
`news_results`/`news`/`organic_results`, slice to `max_results`, and map
each item to an article dict.  `data` is the parsed JSON response. -/
def serpItem (item : JVal) : Except Unit Article := do
  let t ← item.getE "title"
  let h ← item.getE "headline"
  let l ← item.getE "link"
  let src ← item.getE "source"
  let sn ← item.getE "snippet"
  let sm ← item.getE "summary"
  let dsc ← item.getE "description"
  let d ← item.getE "date"
  let pd ← item.getE "published_date"
  let tm ← item.getE "time"
  let sname ← if src.isObj then (orV src .onil).getE "name" else pure src
  pure { title := orV t h, url := orV l src, source := sname,
         snippet := orV sn (orV sm dsc), published := orV d (orV pd tm),
         raw := item }

/-- Parse step of the SerpApi adapter (inside its `try`). -/
def serpBody (data : JVal) (maxResults : Nat) : Except Unit (List Article) := do
  let a ← data.getE "news_results"
  let b ← data.getE "news"
  let c ← data.getE "organic_results"
  let items ← (orV a (orV b (orV c .anil))).sliceIterE maxResults
  items.mapM serpItem

/-- The catch-all `except` of a news adapter: any raised error becomes
an empty list. -/
def orEmpty (m : Except Unit (List Article)) : List Article :=
  match m with
  | .ok l => l
  | .error _ => []

/-- `news_sources.fetch_news_serpapi`.  `key` models the module-level
`SERPAPI_KEY`; `resp` models the outcome of `requests.get` +
`raise_for_status` + `.json()` (`.error` = transport failure, HTTP
error, or malformed JSON).  The catch-all `except` turns any error into
an empty list. -/
def fetch_news_serpapi (key : Option String) (resp : Except Unit JVal)
    (maxResults : Nat := 10) : List Article :=
  if !truthyKey key then []
  else orEmpty (Except.bind resp fun d => serpBody d maxResults)

/-- One Bing item: `provider[0]["name"]` raises on a malformed provider
entry, which the adapter-level `except` then converts to `[]`. -/
def bingItem (item : JVal) : Except Unit Article := do
  let n ← item.getE "name"
  let u ← item.getE "url"
  let p ← item.getE "provider"
  let sname ←
    if truthy p then do (← p.index0E).getKeyE "name"
    else pure .jnull
  let d ← item.getE "description"
  let dp ← item.getE "datePublished"
  pure { title := n, url := u, source := sname, snippet := d,
         published := dp, raw := item }

/-- Parse step of the Bing adapter (inside its `try`): `data.get("value",
[])[:max_results]` mapped through `bingItem`. -/
def bingBody (data : JVal) (maxResults : Nat) : Except Unit (List Article) := do
  let v ← data.getDE "value" .anil
  let items ← v.sliceIterE maxResults
  items.mapM bingItem

/-- `news_sources.fetch_news_bing` with the same conventions as the
SerpApi embedding. -/
def fetch_news_bing (key : Option String) (resp : Except Unit JVal)
    (maxResults : Nat := 10) : List Article :=
  if !truthyKey key then []
  else orEmpty (Except.bind resp fun d => bingBody d maxResults)

/-- One GDELT item. -/
def gdeltItem (item : JVal) : Except Unit Article := do
  let t ← item.getE "title"
  let u ← item.getE "url"
  let dm ← item.getE "domain"
  let sd ← item.getE "seendescription"
  let sdt ← item.getE "seendate"
  pure { title := t, url := u, source := dm, snippet := orV sd t,
         published := sdt, raw := item }

/-- GDELT date fix-up: `datetime.strptime(s, "%Y%m%d%H%M%S").isoformat()`
inside its own `try/except pass`, keeping the original on failure.
`pg` is the strptime/isoformat oracle (`none` = parse failure). -/
def gdeltConvDate (pg : String → Option String) (a : Article) : Article :=
  if truthy a.published then
    match a.published with
    | .jstr s =>
      match pg s with
      | some iso => { a with published := .jstr iso }
      | none => a
    | _ => a
  else a

/-- Parse step of the GDELT adapter (inside its `try`). -/
def gdeltBody (pg : String → Option String) (data : JVal) (maxResults : Nat) :
    Except Unit (List Article) := do
  let arts ← data.getDE "articles" .anil
  let items ← arts.sliceIterE maxResults
  let base ← items.mapM gdeltItem
  pure (base.map (gdeltConvDate pg))

/-- `news_sources.fetch_news_gdelt`: no credential is required; errors
are converted to `[]` by the catch-all `except`. -/
def fetch_news_gdelt (pg : String → Option String) (resp : Except Unit JVal)
    (maxResults : Nat := 10) : List Article :=
  orEmpty (Except.bind resp fun d => gdeltBody pg d maxResults)

/-- Result of `extractor.extract_basic_metadata` as consumed by the
enrichment pass (only the `title`, `description` and `evidence_snippet`
keys are read there). -/
structure Meta where
  title : JVal := .jnull
  description : JVal := .jnull
  evidence_snippet : JVal := .jnull
  deriving DecidableEq, Repr, Inhabited

/-- The field update performed on an article when an enrichment fetch
yields text: fill `headline` and `summary` only where falsy. -/
def applyMeta (a : Article) (m : Meta) : Article :=
  { a with headline := orV a.headline m.title,
           summary := orV a.summary (orV m.description m.evidence_snippet) }

/-- `news_sources.enrich_with_html_fallback`, recursive worker.
`fetchText url` models `fetch_url(url).get("raw_text")` truthiness
(`none` = falsy raw text); `ex rawText url` models
`extract_basic_metadata(raw_text, url)`.  Returns the output articles,
the final enrichment count, and the list of URLs passed to the content
fetcher. -/
def enrichStep (fetchText : JVal → Option String) (ex : String → JVal → Meta)
    (maxFallback : Nat) : Nat → List Article → List Article × Nat × List JVal
  | count, [] => ([], count, [])
  | count, a :: rest =>
    if (!truthy a.headline || !truthy a.summary) && truthy a.source_url
        && decide (count < maxFallback) then
      match fetchText a.source_url with
      | some rawText =>
        (applyMeta a (ex rawText a.source_url) ::
           (enrichStep fetchText ex maxFallback (count + 1) rest).1,
         (enrichStep fetchText ex maxFallback (count + 1) rest).2.1,
         a.source_url :: (enrichStep fetchText ex maxFallback (count + 1) rest).2.2)
      | none =>
        (a :: (enrichStep fetchText ex maxFallback count rest).1,
         (enrichStep fetchText ex maxFallback count rest).2.1,
         a.source_url :: (enrichStep fetchText ex maxFallback count rest).2.2)
    else
      (a :: (enrichStep fetchText ex maxFallback count rest).1,
       (enrichStep fetchText ex maxFallback count rest).2.1,
       (enrichStep fetchText ex maxFallback count rest).2.2)

/-- `news_sources.enrich_with_html_fallback` with its initial
`count = 0`. -/
def enrich_with_html_fallback (fetchText : JVal → Option String)
    (ex : String → JVal → Meta) (articles : List Article)
    (maxFallback : Nat := 3) : List Article × Nat × List JVal :=
  enrichStep fetchText ex maxFallback 0 articles

/-- `news_sources.normalize_date`: `None`/falsy maps to `None`; a parse
failure (including a non-string argument, where `parse_date` raises)
returns the original value.  `pd` is the `dateutil` parser oracle. -/
def normalize_date (pd : String → Option String) (v : JVal) : JVal :=
  if !truthy v then .jnull
  else
    match v with
    | .jstr s =>
      match pd s with
      | some iso => .jstr iso
      | none => .jstr s
    | _ => v

/-- The per-article normalization dict built by
`fetch_company_news_multi` (its `norm` loop body). -/
def normalizeArticle (pd : String → Option String) (nowIso : String)
    (a : Article) : Article :=
  { headline := orV a.title a.headline,
    summary := orV a.snippet a.summary,
    source_url := orV a.url a.source_url,
    published := normalize_date pd a.published,
    source_name := a.source,
    fetched := .jstr nowIso,
    provenance := orV a.raw .onil }

/-- `news_sources._load_cache`: the cache file for a company is `none`
(missing) or `(mtime, parse)` where `parse` is the outcome of
`json.loads` on its text (`.error` = corrupt).  Timestamps are measured
in hours.  Missing, expired and corrupt entries all load as `none`. -/
def load_cache (file : Option (Nat × Except Unit JVal)) (now : Nat)
    (ttlHours : Nat := 24) : Option JVal :=
  match file with
  | none => none
  | some (mtime, parse) =>
    if now - mtime > ttlHours then none
    else
      match parse with
      | .ok v => some v
      | .error _ => none

/-- Tier tags for the adapter-invocation trace. -/
inductive Tier where
  | serpapi
  | bing
  | gdelt
  deriving DecidableEq, Repr

/-- The ambient inputs of one `fetch_company_news_multi` call: the three
tier adapters (as functions of the still-outstanding quota, with their
own HTTP inputs already applied), the company's cache file and the
clock, the content-fetch and metadata oracles for the enrichment pass,
the date parser, and whether the cache write raises. -/
structure NewsWorld where
  serp : Nat → List Article
  bing : Nat → List Article
  gdelt : Nat → List Article
  cacheFile : Option (Nat × Except Unit JVal) := none
  now : Nat := 0
  saveFails : Bool := false
  fetchText : JVal → Option String := fun _ => none
  extractMeta : String → JVal → Meta := fun _ _ => {}
  parseDate : String → Option String := fun _ => none
  nowIso : String := ""

/-- Tiers 1 and 2 of the fallback chain with the adapter-call trace:
SerpApi is always called with the full quota; Bing runs only while the
collected count is below `max_results`, with the remaining quota. -/
def tier2 (w : NewsWorld) (maxResults : Nat) :
    List Article × List (Tier × Nat) :=
  if (w.serp maxResults).length < maxResults then
    (w.serp maxResults ++ w.bing (maxResults - (w.serp maxResults).length),
     [(Tier.serpapi, maxResults),
      (Tier.bing, maxResults - (w.serp maxResults).length)])
  else (w.serp maxResults, [(Tier.serpapi, maxResults)])

/-- Tier 3 (GDELT) appended to the chain under the same discipline. -/
def tier3 (w : NewsWorld) (maxResults : Nat) :
    List Article × List (Tier × Nat) :=
  if (tier2 w maxResults).1.length < maxResults then
    ((tier2 w maxResults).1
       ++ w.gdelt (maxResults - (tier2 w maxResults).1.length),
     (tier2 w maxResults).2
       ++ [(Tier.gdelt, maxResults - (tier2 w maxResults).1.length)])
  else tier2 w maxResults

/-- Outcome of `fetch_company_news_multi`: either the cached JSON payload
returned verbatim, or a freshly normalized article list. -/
inductive NewsResult where
  | fromCache (payload : JVal)
  | fresh (items : List Article)
  deriving DecidableEq, Repr

/-- The cache-miss path of `fetch_company_news_multi`: tiered fetch,
enrichment pass (budget 3), normalization of the first `max_results`
items, then the cache write, whose failure propagates (`_save_cache`
has no exception handler).  Returns the result, the tier trace, and the
content-fetch trace of the enrichment pass. -/
def freshNews (w : NewsWorld) (maxResults : Nat) (useCache : Bool) :
    Except Unit NewsResult × List (Tier × Nat) × List JVal :=
  if useCache && w.saveFails then
    (.error (), (tier3 w maxResults).2,
     (enrich_with_html_fallback w.fetchText w.extractMeta
        (tier3 w maxResults).1 3).2.2)
  else
    (.ok (.fresh
        (((enrich_with_html_fallback w.fetchText w.extractMeta
             (tier3 w maxResults).1 3).1.take maxResults).map
          (normalizeArticle w.parseDate w.nowIso))),
     (tier3 w maxResults).2,
     (enrich_with_html_fallback w.fetchText w.extractMeta
        (tier3 w maxResults).1 3).2.2)

/-- `news_sources.fetch_company_news_multi`.  With `use_cache`, a truthy
cached payload is returned verbatim (Python `if cached:`); otherwise the
fresh path runs. -/
def fetch_company_news_multi (w : NewsWorld) (maxResults : Nat := 10)
    (useCache : Bool := true) :
    Except Unit NewsResult × List (Tier × Nat) × List JVal :=
  if useCache then
    match load_cache w.cacheFile w.now 24 with
    | some payload =>
      if truthy payload then (.ok (.fromCache payload), [], [])
      else freshNews w maxResults useCache
    | none => freshNews w maxResults useCache
  else freshNews w maxResults useCache

/-!  Clinical-trials module. -/

/-- `clinical_trials.fetch_trials`: the HTTP call, `raise_for_status()`
and `.json()` have no exception handler, so an error input propagates
unchanged.  On success the shape is normalized to a dict with a
`studies` key.  The `max_records` argument only feeds the request
parameters, which the response input already reflects. -/
def fetch_trials (resp : Except Unit JVal) (_maxRecords : Nat := 5) :
    Except Unit JVal := do
  let data ← resp
  match data with
  | .onil | .ocons _ _ _ =>
    if (JVal.lookups data "studies").isSome then pure data
    else pure (JVal.obj [("studies", JVal.arr [])])
  | .anil | .acons _ _ => pure (JVal.obj [("studies", data)])
  | _ => pure (JVal.obj [("studies", JVal.arr [])])

/-- One element of the `raw_results` list accepted by
`normalize_trials`: a `(variant, raw_json)` tuple, or any other value
(the code then falls back to the company name as variant). -/
inductive TrialsItem where
  | tup (variant : String) (raw : JVal)
  | plain (raw : JVal)
  deriving DecidableEq, Repr

/-- The two input shapes `normalize_trials` accepts: a single raw JSON
dict, or a list of items. -/
inductive TrialsInput where
  | dict (raw : JVal)
  | list (items : List TrialsItem)
  deriving DecidableEq, Repr

/-- The `(variant, raw_json)` pairs `normalize_trials` iterates over
after its input-shape normalization. -/
def trialsPairs (input : TrialsInput) (companyName : String) :
    List (String × JVal) :=
  match input with
  | .dict raw => [(companyName, raw)]
  | .list items =>
    items.map fun
      | .tup v raw => (v, raw)
      | .plain raw => (companyName, raw)

/-- `raw_json.get("studies", [])` followed by iteration. -/
def studiesOf (raw : JVal) : Except Unit (List JVal) := do
  let s ← raw.getDE "studies" .anil
  s.iterE

/-- Flatten the nested `for` loops of `normalize_trials` into one
processing sequence of `(variant, study)` pairs. -/
def flattenStudies : List (String × JVal) → Except Unit (List (String × JVal))
  | [] => .ok []
  | (v, raw) :: rest => do
    let ss ← studiesOf raw
    let tail ← flattenStudies rest
    pure (ss.map (fun s => (v, s)) ++ tail)

/-- Join a list of words with a separator (Python `sep.join`). -/
def joinSep (sep : String) : List String → String
  | [] => ""
  | [s] => s
  | s :: rest => s ++ sep ++ joinSep sep rest

/-- Python `"...".join(parts)` raises unless every part is a string. -/
def joinStrsE : List JVal → Except Unit (List String)
  | [] => .ok []
  | .jstr s :: rest => do pure (s :: (← joinStrsE rest))
  | _ => .error ()

/-- `clinical_trials._build_snippet`: concatenate brief title, first
condition and first intervention with a separator, capped at 150
characters. -/
def build_snippet (protocol : JVal) : Except Unit String := do
  let ident ← protocol.getDE "identificationModule" .onil
  let cm ← protocol.getDE "conditionsModule" .onil
  let conditions ← cm.getDE "conditions" .anil
  let am ← protocol.getDE "armsInterventionsModule" .onil
  let interventions ← am.getDE "interventions" .anil
  let bt ← ident.getE "briefTitle"
  let parts1 : List JVal := if truthy bt then [bt] else []
  let parts2 ←
    if truthy conditions then do
      let c0 ← conditions.index0E
      pure (parts1 ++ [JVal.jstr ("Condition: " ++ pyStr c0)])
    else pure parts1
  let parts3 ←
    if truthy interventions then do
      let i0 ← interventions.index0E
      let nm ← i0.getE "name"
      pure (parts2 ++ [JVal.jstr ("Intervention: " ++ pyStr nm)])
    else pure parts2
  let strs ← joinStrsE parts3
  pure (String.mk ((joinSep " | " strs).data.take 150))

/-- `_normalize_phase` applied to a raw JSON phase value: falsy values
are `unknown`; a truthy non-string raises at `.lower()`. -/
def normalizePhaseJ (v : JVal) : Except Unit String :=
  if !truthy v then .ok "unknown"
  else
    match v with
    | .jstr s => .ok (normalize_phase s)
    | _ => .error ()

/-- One normalized clinical-trial record (the dict built inside the
`normalize_trials` study loop). -/
structure Trial where
  nct : JVal
  status : JVal
  phase : String
  condition : JVal
  intervention : JVal
  source_url : String
  fetched : String
  evidence_snippet : String
  matched_variant : String
  deriving DecidableEq, Repr

/-- The NCT-id extraction of the study loop:
`protocolSection` → `identificationModule` → `nctId`, raising where
Python attribute access on a non-dict would. -/
def nctOfE (s : JVal) : Except Unit JVal := do
  let protocol ← s.getDE "protocolSection" .onil
  let ident ← protocol.getDE "identificationModule" .onil
  ident.getE "nctId"

/-- Construction of the normalized record for one study under one
variant, exactly the field extractions of the `normalize_trials` loop
body.  (The source extracts `statusModule` right after
`identificationModule`; that extraction cannot fail once the
`identificationModule` access has succeeded — both need `protocol` to
be a dict — so the order below is error-equivalent.) -/
def mkTrial (nowIso : String) (variant : String) (s : JVal) :
    Except Unit Trial := do
  let protocol ← s.getDE "protocolSection" .onil
  let nct ← nctOfE s
  let statusM ← protocol.getDE "statusModule" .onil
  let dm ← protocol.getDE "designModule" .onil
  let phases ← dm.getDE "phases" (JVal.arr [.jstr "Unknown"])
  let phaseRaw ← phases.index0E
  let phase ← normalizePhaseJ phaseRaw
  let statusV ← statusM.getDE "overallStatus" (.jstr "Unknown")
  let cm ← protocol.getDE "conditionsModule" .onil
  let conds ← cm.getDE "conditions" (JVal.arr [.jnull])
  let cond ← conds.index0E
  let am ← protocol.getDE "armsInterventionsModule" .onil
  let intervs ← am.getDE "interventions" (JVal.arr [.onil])
  let i0 ← intervs.index0E
  let interv ← i0.getE "name"
  let snip ← build_snippet protocol
  pure { nct := nct, status := statusV, phase := phase, condition := cond,
         intervention := interv,
         source_url := "https://clinicaltrials.gov/study/" ++ pyStr nct,
         fetched := nowIso, evidence_snippet := snip,
         matched_variant := variant }

/-- One iteration of the study loop: skip non-dict studies, extract the
NCT id (raising where Python would), skip falsy or already-seen ids
(first-seen wins), and otherwise normalize the study and record its id
as seen.  Python hashes the id for the `seen` set, so an unhashable id
raises. -/
def processStudy (nowIso variant : String) (s : JVal) (seen : List JVal) :
    Except Unit (Option (Trial × List JVal)) :=
  if !s.isObj then .ok none
  else do
    let nct ← nctOfE s
    if !truthy nct then pure none
    else if !nct.hashable then .error ()
    else if nct ∈ seen then pure none
    else do
      let t ← mkTrial nowIso variant s
      pure (some (t, nct :: seen))

/-- The full study loop threading the `seen` set. -/
def normCore (nowIso : String) :
    List (String × JVal) → List JVal → Except Unit (List Trial)
  | [], _ => .ok []
  | (v, s) :: rest, seen => do
    match ← processStudy nowIso v s seen with
    | none => normCore nowIso rest seen
    | some (t, seen') => do
      let tail ← normCore nowIso rest seen'
      pure (t :: tail)

/-- Increment the count for a phase label, preserving first-insertion
order (Python dict update `counts[k] = counts.get(k, 0) + 1`). -/
def bumpCount : List (String × Nat) → String → List (String × Nat)
  | [], k => [(k, 1)]
  | (k', n) :: rest, k =>
    if k' = k then (k', n + 1) :: rest else (k', n) :: bumpCount rest k

/-- The count-by-phase summary of `normalize_trials`. -/
def counts_by_phase (ts : List Trial) : List (String × Nat) :=
  (ts.map (·.phase)).foldl bumpCount []

/-- Output of `normalize_trials` (`pipeline.candidates` and
`pipeline.counts_by_phase`). -/
structure TrialsOut where
  company_name : String
  candidates : List Trial
  counts : List (String × Nat)
  deriving DecidableEq, Repr

/-- `clinical_trials.normalize_trials`. -/
def normalize_trials (nowIso : String) (rawResults : TrialsInput)
    (companyName : String) : Except Unit TrialsOut := do
  let fl ← flattenStudies (trialsPairs rawResults companyName)
  let cands ← normCore nowIso fl []
  pure ⟨companyName, cands, counts_by_phase cands⟩

/-- The NCT key a study would contribute, if any: defined exactly when
the dedup guard of the loop reads a truthy `nctId` from the study. -/
def studyKeyOf (s : JVal) : Option JVal :=
  if !s.isObj then none
  else
    match nctOfE s with
    | .ok n => if truthy n then some n else none
    | .error _ => none

/-- First study in processing order carrying a given NCT key. -/
def firstHit (fl : List (String × JVal)) (k : JVal) : Option (String × JVal) :=
  fl.find? fun p => decide (studyKeyOf p.2 = some k)

/-!  EDGAR financials module. -/

/-- One filing record produced by `fetch_edgar_filings`. -/
structure Filing where
  form : String
  filing_date : String
  file_path : String
  source_url : String
  fetched : String
  deriving DecidableEq, Repr

/-- One provenance record of `normalize_financials`. -/
structure Provenance where
  source_url : String
  source_type : String
  fetched : String
  evidence_snippet : String
  deriving DecidableEq, Repr

/-- Output schema of `normalize_financials`. -/
structure Financials where
  public : Bool
  filings : List Filing
  provenance : List Provenance
  deriving DecidableEq, Repr

/-- Python `a or b` on optional identifier strings. -/
def pyOr (a b : Option String) : Option String := if truthyKey a then a else b

/-- Descending sort (Python `sorted(..., reverse=True)`). -/
def sortDesc (l : List String) : List String :=
  l.mergeSort fun a b => !decide (a < b)

/-- The SEC collaborators of `fetch_edgar_filings`: the downloader call
(which may raise, caught per form type) and the local filing directory
tree it populates.  Paths are relative to the working directory. -/
structure EdgarWorld where
  dlGet : String → String → Except Unit Unit
  pathExists : String → Bool := fun _ => false
  listdir : String → List String := fun _ => []
  nowIso : String := ""

/-- The per-form-type body of `fetch_edgar_filings`: download, then walk
the newest `count` filing folders; a raised download error skips the
form. -/
def edgarForm (w : EdgarWorld) (ident urlIdent : String) (count : Nat)
    (form : String) : List Filing :=
  match w.dlGet form ident with
  | .error _ => []
  | .ok _ =>
    let basePath := "sec-edgar-filings/" ++ ident ++ "/" ++ form
    if w.pathExists basePath then
      ((sortDesc (w.listdir basePath)).take count).filterMap fun folder =>
        let filingPath := basePath ++ "/" ++ folder ++ "/full-submission.txt"
        if w.pathExists filingPath then
          some { form := form, filing_date := folder, file_path := filingPath,
                 source_url := "https://www.sec.gov/Archives/edgar/data/"
                   ++ urlIdent ++ "/" ++ folder ++ "/index.html",
                 fetched := w.nowIso }
        else none
    else []

/-- `edgar_financials.fetch_edgar_filings`: with neither ticker nor CIK
it short-circuits to `[]` before the downloader is even constructed.
The second component counts `dl.get` network calls (one per form type
otherwise). -/
def fetch_edgar_filings (w : EdgarWorld) (ticker cik : Option String)
    (count : Nat := 2) : List Filing × Nat :=
  if !truthyKey ticker && !truthyKey cik then ([], 0)
  else
    let ident := (pyOr ticker cik).getD ""
    let urlIdent := (pyOr cik ticker).getD ""
    (edgarForm w ident urlIdent count "10-K"
       ++ edgarForm w ident urlIdent count "10-Q", 2)

/-- `edgar_financials.normalize_financials`. -/
def normalize_financials (filings : List Filing) (isPublic : Bool := true) :
    Financials :=
  if !isPublic then ⟨false, [], []⟩
  else if filings.isEmpty then ⟨true, [], []⟩
  else
    ⟨true, filings,
     filings.map fun f =>
       ⟨f.source_url, "edgar", f.fetched,
        f.form ++ " filing on " ++ f.filing_date⟩⟩

/-!  Content fetcher (`fetcher.fetch_url`). -/

/-- The dict returned by `fetch_url`. -/
structure FetchResult where
  raw_text : Option String := none
  archive_path : Option String := none
  fetched_at : String := ""
  from_cache : Bool := false
  error : Option String := none
  deriving DecidableEq, Repr

/-- The collaborators of `fetch_url`: the URL-digest derivation
(standing for the first 16 hex digits of the URL's SHA-256) and the
network, indexed by attempt number (`.error` = transport failure or
HTTP error status). -/
structure FetchWorld where
  digest : String → String
  net : Nat → Except Unit String
  nowIso : String := ""

/-- Overwriting update of the archive store (`Path.write_text`). -/
def setAssoc : List (String × String) → String → String →
    List (String × String)
  | [], k, v => [(k, v)]
  | (k', v') :: rest, k, v =>
    if k' = k then (k, v) :: rest else (k', v') :: setAssoc rest k v

/-- Archive file path for a digest key. -/
def archivePathOf (key : String) : String := "archive/" ++ key ++ ".html"

/-- The retry loop of `fetch_url` over the remaining attempt indices.
Returns the result dict, the updated archive store, and the number of
network requests issued. -/
def fetchAttempts (w : FetchWorld) (archive : List (String × String))
    (key : String) (maxRetries : Nat) :
    List Nat → FetchResult × List (String × String) × Nat
  | [] =>
    ({ raw_text := none, archive_path := none, fetched_at := w.nowIso,
       from_cache := false,
       error := some ("Failed after " ++ toString maxRetries ++ " attempts") },
     archive, 0)
  | i :: rest =>
    match w.net i with
    | .ok text =>
      ({ raw_text := some text, archive_path := some (archivePathOf key),
         fetched_at := w.nowIso, from_cache := false },
       setAssoc archive key text, 1)
    | .error _ =>
      let r := fetchAttempts w archive key maxRetries rest
      (r.1, r.2.1, r.2.2 + 1)

/-- `fetcher.fetch_url`: with `use_cache` and an existing archive entry
for the URL's digest, return the archived copy with no network call;
otherwise retry up to `max_retries` times, archiving the exact retrieved
content on success (an existing entry is overwritten), and return a
failure descriptor — not an exception — when all attempts fail. -/
def fetch_url (w : FetchWorld) (archive : List (String × String))
    (url : String) (useCache : Bool := true) (maxRetries : Nat := 3) :
    FetchResult × List (String × String) × Nat :=
  let key := w.digest url
  match if useCache then archive.lookup key else none with
  | some text =>
    ({ raw_text := some text, archive_path := some (archivePathOf key),
       fetched_at := w.nowIso, from_cache := true }, archive, 0)
  | none => fetchAttempts w archive key maxRetries (List.range maxRetries)

/-!  Concrete instances used to evaluate the definitions on specific
inputs. -/

/-- A news world whose cache file holds a fresh, well-formed, but empty
(and therefore falsy) payload; all providers return nothing. -/
def wEmptyPayload : NewsWorld :=
  { serp := fun _ => [], bing := fun _ => [], gdelt := fun _ => [],
    cacheFile := some (0, .ok .anil), now := 0, saveFails := false,
    fetchText := fun _ => none, extractMeta := fun _ _ => {},
    parseDate := fun _ => none, nowIso := "t" }

/-- A news world with a cache miss whose cache write raises. -/
def wSaveFail : NewsWorld :=
  { serp := fun _ => [], bing := fun _ => [], gdelt := fun _ => [],
    cacheFile := none, now := 0, saveFails := true,
    fetchText := fun _ => none, extractMeta := fun _ _ => {},
    parseDate := fun _ => none, nowIso := "t" }

/-- A news world with a fresh truthy cached payload. -/
def wCacheHit : NewsWorld :=
  { serp := fun _ => [], bing := fun _ => [], gdelt := fun _ => [],
    cacheFile := some (3, .ok (JVal.arr [.jstr "x"])), now := 20,
    saveFails := false, fetchText := fun _ => none,
    extractMeta := fun _ _ => {}, parseDate := fun _ => none, nowIso := "t" }

/-- A news world whose tiers return 2, 1 and 1 articles respectively
(all with only default fields). -/
def wQuota : NewsWorld :=
  { serp := fun _ => [{}, {}], bing := fun _ => [{}],
    gdelt := fun _ => [{}], cacheFile := none, now := 0,
    saveFails := false, fetchText := fun _ => none,
    extractMeta := fun _ _ => {}, parseDate := fun _ => none, nowIso := "t" }

/-- An article that lacks a headline and a summary but carries a source
URL. -/
def artIncomplete : Article := { source_url := .jstr "u" }

/-- A content fetch that always yields text. -/
def fetchAlways : JVal → Option String := fun _ => some "x"

/-- A metadata extraction that always yields a title and description. -/
def extractConst : String → JVal → Meta :=
  fun _ _ => { title := .jstr "T", description := .jstr "D" }

/-- A fetch world whose digest is constant and whose network always
succeeds with the text "new". -/
def fwOverwrite : FetchWorld :=
  { digest := fun _ => "k", net := fun _ => .ok "new", nowIso := "t" }

/-- A minimal well-formed study record with the given NCT id and brief
title. -/
def studyA (nct title : String) : JVal :=
  JVal.obj [("protocolSection",
    JVal.obj [("identificationModule",
      JVal.obj [("nctId", .jstr nct), ("briefTitle", .jstr title)])])]

/-- Two variant queries whose results overlap on NCT id NCT1. -/
def trialsInputX : TrialsInput :=
  .list [.tup "Pfizer" (JVal.obj [("studies", JVal.arr [studyA "NCT1" "A"])]),
         .tup "Pfizer Inc."
           (JVal.obj [("studies",
             JVal.arr [studyA "NCT1" "B", studyA "NCT2" "C"])])]

/-- The flattened processing sequence of `trialsInputX`. -/
def trialsFlatX : List (String × JVal) :=
  [("Pfizer", studyA "NCT1" "A"), ("Pfizer Inc.", studyA "NCT1" "B"),
   ("Pfizer Inc.", studyA "NCT2" "C")]

/-- The normalized output of `trialsInputX`: one record per distinct NCT
id, first-seen variant retained. -/
def trialsOutX : TrialsOut :=
  { company_name := "Pfizer",
    candidates :=
      [{ nct := .jstr "NCT1", status := .jstr "Unknown", phase := "unknown",
         condition := .jnull, intervention := .jnull,
         source_url := "https://clinicaltrials.gov/study/NCT1",
         fetched := "now", evidence_snippet := "A",
         matched_variant := "Pfizer" },
       { nct := .jstr "NCT2", status := .jstr "Unknown", phase := "unknown",
         condition := .jnull, intervention := .jnull,
         source_url := "https://clinicaltrials.gov/study/NCT2",
         fetched := "now", evidence_snippet := "C",
         matched_variant := "Pfizer Inc." }],
    counts := [("unknown", 2)] }

/-!  Theorems. -/

/-- Lowercasing preserves emptiness. -/
theorem lowerStr_eq_empty_iff (s : String) : lowerStr s = "" ↔ s = "" := by
  constructor
  · intro h
    have h3 : s.data.map Char.toLower = [] := congrArg String.data h
    have h4 : s.data = [] := List.map_eq_nil_iff.mp h3
    cases s with
    | mk d =>
      simp only at h4
      subst h4
      rfl
  · intro h
    subst h
    rfl

/-- C4 (counterexample): the label "Phase 1/Phase 2" does not contain
the contiguous substring "1/2", so `_normalize_phase` falls through to
the single-digit check for "1" and returns `phase1`, not `phase1_2`. -/
theorem C4_counterexample :
    normalize_phase "Phase 1/Phase 2" = "phase1" ∧
    normalize_phase "Phase 1/Phase 2" ≠ "phase1_2" := by
  decide

/-- C4 (amended): `_normalize_phase` is total and always returns one of
the 8 enum values; empty input maps to `unknown`; classification
depends only on the lowercased input (case-insensitivity); and any
label containing the contiguous substring "1/2" (such as "Phase 1/2")
classifies as `phase1_2`. -/
theorem C4_normalize_phase_classification :
    ∀ s t : String,
      normalize_phase s ∈ phaseEnum ∧
      (s = "" → normalize_phase s = "unknown") ∧
      (lowerStr s = lowerStr t → normalize_phase s = normalize_phase t) ∧
      (strContains (lowerStr s) "1/2" = true → normalize_phase s = "phase1_2") := by
  intro s t
  refine ⟨?_, ?_, ?_, ?_⟩
  · unfold normalize_phase
    split_ifs <;> simp [phaseEnum]
  · intro h
    simp [normalize_phase, h]
  · intro h
    by_cases hs : s = ""
    · have ht : t = "" := by
        rw [hs] at h
        exact (lowerStr_eq_empty_iff t).mp (by rw [← h]; rfl)
      rw [hs, ht]
    · have ht : t ≠ "" := by
        intro he
        rw [he] at h
        exact hs ((lowerStr_eq_empty_iff s).mp (by rw [h]; rfl))
      unfold normalize_phase
      rw [if_neg hs, if_neg ht, h]
  · intro h
    have hs : s ≠ "" := by
      intro he
      rw [he] at h
      exact absurd h (by decide)
    unfold normalize_phase
    rw [if_neg hs, if_pos h]

/-- C4 (witness): the amended theorem applied at concrete labels. -/
theorem C4_witness :
    normalize_phase "Phase 1/2" ∈ phaseEnum ∧
    normalize_phase "PHASE 1/2" = normalize_phase "Phase 1/2" ∧
    normalize_phase "Phase 1/2" = "phase1_2" := by
  refine ⟨(C4_normalize_phase_classification "Phase 1/2" "x").1, ?_, ?_⟩
  · exact (C4_normalize_phase_classification "PHASE 1/2" "Phase 1/2").2.2.1
      (by decide)
  · exact (C4_normalize_phase_classification "Phase 1/2" "x").2.2.2 (by decide)

/-- C7: with neither a ticker nor a CIK, `fetch_edgar_filings` returns
an empty list with zero downloader calls, and
`normalize_financials(..., is_public=False)` is exactly
`{public: false, filings: [], provenance: []}`. -/
theorem C7_private_company_short_circuit :
    ∀ (w : EdgarWorld) (ticker cik : Option String) (count : Nat)
      (fl : List Filing),
      (truthyKey ticker = false → truthyKey cik = false →
        fetch_edgar_filings w ticker cik count = ([], 0)) ∧
      normalize_financials fl false = ⟨false, [], []⟩ := by
  intro w ticker cik count fl
  constructor
  · intro h1 h2
    simp [fetch_edgar_filings, h1, h2]
  · rfl

/-- C7 (witness): the theorem applied to a company with no identifiers
(and a world whose downloader would succeed if it were ever called). -/
theorem C7_witness :
    fetch_edgar_filings
      { dlGet := fun _ _ => .ok (), pathExists := fun _ => true,
        listdir := fun _ => ["2020"], nowIso := "t" } none none 2 = ([], 0) ∧
    normalize_financials [⟨"10-K", "2020", "p", "u", "t"⟩] false
      = ⟨false, [], []⟩ := by
  exact ⟨(C7_private_company_short_circuit
            { dlGet := fun _ _ => .ok (), pathExists := fun _ => true,
              listdir := fun _ => ["2020"], nowIso := "t" }
            none none 2 [⟨"10-K", "2020", "p", "u", "t"⟩]).1 rfl rfl,
         (C7_private_company_short_circuit
            { dlGet := fun _ _ => .ok (), pathExists := fun _ => true,
              listdir := fun _ => ["2020"], nowIso := "t" }
            none none 2 [⟨"10-K", "2020", "p", "u", "t"⟩]).2⟩

/-- C9 (counterexample): with `use_cache=False`, a call for a URL whose
archive entry exists overwrites that entry — the archive store changes. -/
theorem C9_counterexample :
    (fetch_url fwOverwrite [("k", "old")] "u" false 3).2.1 ≠ [("k", "old")] := by
  decide

/-- C9 (amended): with `use_cache=True` (the default), whenever an
archive entry exists for the URL's digest, `fetch_url` returns the
archived copy with `from_cache=true`, performs no network call and
leaves the archive store unchanged; with `use_cache=False` a successful
fetch overwrites any existing entry. -/
theorem C9_cached_entry_preserved :
    ∀ (w : FetchWorld) (archive : List (String × String)) (url : String)
      (n : Nat) (text : String),
      archive.lookup (w.digest url) = some text →
      fetch_url w archive url true n =
        ({ raw_text := some text,
           archive_path := some (archivePathOf (w.digest url)),
           fetched_at := w.nowIso, from_cache := true }, archive, 0) := by
  intro w archive url n text h
  simp [fetch_url, h]

/-- C9 (witness): the amended theorem applied at a concrete archived
URL. -/
theorem C9_witness :
    fetch_url fwOverwrite [("k", "old")] "u" true 3 =
      ({ raw_text := some "old", archive_path := some (archivePathOf "k"),
         fetched_at := "t", from_cache := true }, [("k", "old")], 0) :=
  C9_cached_entry_preserved fwOverwrite [("k", "old")] "u" 3 "old" (by decide)

/-- C1 (counterexample): the clinical-trials fetcher has no exception
handler: a transport failure or HTTP error propagates out of
`fetch_trials` instead of yielding an empty result. -/
theorem C1_counterexample : fetch_trials (.error ()) 5 = .error () := rfl

/-- C1 (amended): the three news-tier adapters never raise — on missing
credentials, transport failure, or a body whose parsing fails they
return an empty list — but the clinical-trials fetcher `fetch_trials`
propagates any request error to its caller. -/
theorem C1_news_adapters_never_raise :
    ∀ (key : Option String) (pg : String → Option String) (d : JVal) (n : Nat),
      (truthyKey key = false → fetch_news_serpapi key (.ok d) n = []) ∧
      fetch_news_serpapi key (.error ()) n = [] ∧
      (serpBody d n = .error () → fetch_news_serpapi key (.ok d) n = []) ∧
      (truthyKey key = false → fetch_news_bing key (.ok d) n = []) ∧
      fetch_news_bing key (.error ()) n = [] ∧
      (bingBody d n = .error () → fetch_news_bing key (.ok d) n = []) ∧
      fetch_news_gdelt pg (.error ()) n = [] ∧
      (gdeltBody pg d n = .error () → fetch_news_gdelt pg (.ok d) n = []) ∧
      (∀ e : Unit, fetch_trials (.error e) n = .error e) := by
  intro key pg d n
  refine ⟨?_, ?_, ?_, ?_, ?_, ?_, ?_, ?_, ?_⟩
  · intro h
    simp [fetch_news_serpapi, h]
  · cases hk : truthyKey key <;>
      simp [fetch_news_serpapi, hk, Except.bind, orEmpty]
  · intro h
    cases hk : truthyKey key <;>
      simp [fetch_news_serpapi, hk, Except.bind, orEmpty, h]
  · intro h
    simp [fetch_news_bing, h]
  · cases hk : truthyKey key <;>
      simp [fetch_news_bing, hk, Except.bind, orEmpty]
  · intro h
    cases hk : truthyKey key <;>
      simp [fetch_news_bing, hk, Except.bind, orEmpty, h]
  · simp [fetch_news_gdelt, Except.bind, orEmpty]
  · intro h
    simp [fetch_news_gdelt, Except.bind, orEmpty, h]
  · intro e
    rfl

/-- C1 (witness): the amended theorem at concrete inputs — each news
adapter returns `[]` on a missing key or a malformed (non-dict)
response body, while `fetch_trials` surfaces the error. -/
theorem C1_witness :
    fetch_news_serpapi none (.ok .jnull) 5 = [] ∧
    fetch_news_serpapi (some "k") (.ok .jnull) 5 = [] ∧
    fetch_news_bing none (.ok .jnull) 5 = [] ∧
    fetch_news_bing (some "k") (.ok .jnull) 5 = [] ∧
    fetch_news_gdelt (fun _ => none) (.ok .jnull) 5 = [] ∧
    fetch_trials (.error ()) 5 = .error () := by
  refine ⟨(C1_news_adapters_never_raise none (fun _ => none) .jnull 5).1 rfl,
          (C1_news_adapters_never_raise (some "k") (fun _ => none) .jnull 5).2.2.1 rfl,
          (C1_news_adapters_never_raise none (fun _ => none) .jnull 5).2.2.2.1 rfl,
          (C1_news_adapters_never_raise (some "k") (fun _ => none) .jnull 5).2.2.2.2.2.1 rfl,
          (C1_news_adapters_never_raise none (fun _ => none) .jnull 5).2.2.2.2.2.2.2.1 rfl,
          (C1_news_adapters_never_raise none (fun _ => none) .jnull 5).2.2.2.2.2.2.2.2 ()⟩

/-- C3 (counterexample): a validly cached empty payload is falsy in
Python, so `if cached:` treats it as a miss — the providers are invoked
and the stored payload is not returned. -/
theorem C3_counterexample :
    (fetch_company_news_multi wEmptyPayload 5 true).2.1 ≠ [] ∧
    (fetch_company_news_multi wEmptyPayload 5 true).1 ≠ .ok (.fromCache .anil) := by
  have h1 : (fetch_company_news_multi wEmptyPayload 5 true).2.1 =
      [(Tier.serpapi, 5), (Tier.bing, 5), (Tier.gdelt, 5)] := rfl
  have h2 : (fetch_company_news_multi wEmptyPayload 5 true).1 =
      .ok (.fresh []) := rfl
  refine ⟨by rw [h1]; simp, by rw [h2]; simp⟩

/-- C3 (amended): for every truthy (in particular, non-empty) payload
stored in the cache, a `fetch_company_news_multi` call with
`use_cache=True` within the TTL window returns the stored payload
verbatim, with no tier-adapter call and no content fetch. -/
theorem C3_cache_hit_returns_payload :
    ∀ (w : NewsWorld) (maxResults t0 : Nat) (p : JVal),
      w.cacheFile = some (t0, .ok p) → truthy p = true → w.now - t0 ≤ 24 →
      fetch_company_news_multi w maxResults true = (.ok (.fromCache p), [], []) := by
  intro w maxResults t0 p hf hp httl
  simp [fetch_company_news_multi, load_cache, hf, Nat.not_lt.mpr httl, hp]

/-- C3 (witness): the amended theorem at a concrete fresh cache entry. -/
theorem C3_witness :
    fetch_company_news_multi wCacheHit 5 true =
      (.ok (.fromCache (JVal.arr [.jstr "x"])), [], []) :=
  C3_cache_hit_returns_payload wCacheHit 5 3 (JVal.arr [.jstr "x"]) rfl rfl
    (by decide)

/-- C8 (counterexample): on a cache miss with a failing cache write,
`fetch_company_news_multi` propagates the write error — the caller is
aborted rather than receiving the fresh result. -/
theorem C8_counterexample :
    (fetch_company_news_multi wSaveFail 5 true).1 = .error () := rfl

/-- C8 (amended): a news-cache read failure (missing file, expired
entry, or corrupt JSON) is treated as a cache miss and never raises,
but a cache write failure is not caught: `_save_cache` propagates the
exception out of `fetch_company_news_multi`. -/
theorem C8_read_miss_write_raises :
    ∀ (now t0 ttl : Nat) (c : Except Unit JVal) (w : NewsWorld)
      (maxResults : Nat),
      load_cache none now ttl = none ∧
      (now - t0 > ttl → load_cache (some (t0, c)) now ttl = none) ∧
      load_cache (some (t0, .error ())) now ttl = none ∧
      (w.saveFails = true → load_cache w.cacheFile w.now 24 = none →
        (fetch_company_news_multi w maxResults true).1 = .error ()) := by
  intro now t0 ttl c w maxResults
  refine ⟨rfl, ?_, ?_, ?_⟩
  · intro h
    simp [load_cache, h]
  · cases h : decide (now - t0 > ttl) <;>
      simp_all [load_cache]
  · intro hs hm
    simp [fetch_company_news_multi, hm, freshNews, hs]

/-- C8 (witness): the amended theorem at concrete inputs — an expired
entry and a corrupt entry both load as a miss, and a failing write
aborts the call. -/
theorem C8_witness :
    load_cache (some (0, .ok (JVal.arr [.jstr "x"]))) 30 24 = none ∧
    load_cache (some (0, .error ())) 3 24 = none ∧
    (fetch_company_news_multi wSaveFail 5 true).1 = .error () := by
  refine ⟨(C8_read_miss_write_raises 30 0 24 (.ok (JVal.arr [.jstr "x"]))
             wSaveFail 5).2.1 (by decide),
          (C8_read_miss_write_raises 3 0 24 (.error ()) wSaveFail 5).2.2.1,
          (C8_read_miss_write_raises 3 0 24 (.error ()) wSaveFail 5).2.2.2
            rfl rfl⟩

/-- The adapter-call trace of the two-tier prefix: SerpApi with the full
quota, then Bing with the remaining quota only when the quota is not yet
met. -/
theorem tier2_trace (w : NewsWorld) (m : Nat) :
    (tier2 w m).2 = (Tier.serpapi, m) ::
      (if (w.serp m).length < m then [(Tier.bing, m - (w.serp m).length)]
       else []) := by
  unfold tier2
  split <;> simp

/-- The adapter-call trace of the full three-tier chain. -/
theorem tier3_trace (w : NewsWorld) (m : Nat) :
    (tier3 w m).2 = (Tier.serpapi, m) ::
      ((if (w.serp m).length < m then [(Tier.bing, m - (w.serp m).length)]
        else []) ++
       (if (tier2 w m).1.length < m then
          [(Tier.gdelt, m - (tier2 w m).1.length)]
        else [])) := by
  unfold tier3
  split <;> rw [tier2_trace] <;> simp

/-- C2: on a cache miss, SerpApi is called with the full quota; Bing is
called with quota `max_results - k` exactly when SerpApi returned
`k < max_results` items; GDELT is called with the still-outstanding
quota exactly when the first two tiers left it positive; no tier is
called after the quota is met; and a fresh result holds at most
`max_results` items. -/
theorem C2_fallback_quota_discipline :
    ∀ (w : NewsWorld) (maxResults : Nat) (useCache : Bool),
      (∀ p, load_cache w.cacheFile w.now 24 = some p → truthy p = false) →
      (fetch_company_news_multi w maxResults useCache).2.1 =
        (Tier.serpapi, maxResults) ::
          ((if (w.serp maxResults).length < maxResults then
              [(Tier.bing, maxResults - (w.serp maxResults).length)]
            else []) ++
           (if (tier2 w maxResults).1.length < maxResults then
              [(Tier.gdelt, maxResults - (tier2 w maxResults).1.length)]
            else [])) ∧
      ∀ items, (fetch_company_news_multi w maxResults useCache).1 =
          .ok (.fresh items) → items.length ≤ maxResults := by
  intro w maxResults useCache hm
  have hfresh : fetch_company_news_multi w maxResults useCache =
      freshNews w maxResults useCache := by
    unfold fetch_company_news_multi
    cases useCache
    · rfl
    · cases hlc : load_cache w.cacheFile w.now 24 with
      | none => simp
      | some p => simp [hm p hlc]
  rw [hfresh]
  constructor
  · unfold freshNews
    split <;> exact tier3_trace w maxResults
  · intro items hi
    unfold freshNews at hi
    split at hi
    · cases hi
    · injection hi with hi
      injection hi with hi
      subst hi
      rw [List.length_map]
      exact List.length_take_le _ _

/-- C2 (witness): in a world whose tiers return 2, 1 and 1 articles for
a quota of 5, the trace records SerpApi at quota 5, Bing at quota 3 and
GDELT at quota 2, and the fresh result has at most 5 items. -/
theorem C2_witness :
    (fetch_company_news_multi wQuota 5 true).2.1 =
      [(Tier.serpapi, 5), (Tier.bing, 3), (Tier.gdelt, 2)] ∧
    ∀ items, (fetch_company_news_multi wQuota 5 true).1 =
        .ok (.fresh items) → items.length ≤ 5 := by
  obtain ⟨h1, h2⟩ := C2_fallback_quota_discipline wQuota 5 true
    (fun p hp => by simp [load_cache, wQuota] at hp)
  exact ⟨by rw [h1]; rfl, h2⟩

/-- Invariant of the enrichment loop: lengths are preserved, the
enrichment count never exceeds the budget, at most the remaining budget
many articles are modified, and every modification is exactly the
missing-field fill `applyMeta` after a successful content fetch. -/
theorem enrichStep_aux (f : JVal → Option String) (ex : String → JVal → Meta)
    (mf : Nat) :
    ∀ (arts : List Article) (c0 : Nat), c0 ≤ mf →
      (enrichStep f ex mf c0 arts).1.length = arts.length ∧
      (enrichStep f ex mf c0 arts).2.1 ≤ mf ∧
      ((enrichStep f ex mf c0 arts).1.zip arts).countP
          (fun p => decide (p.1 ≠ p.2)) ≤ mf - c0 ∧
      ∀ p ∈ (enrichStep f ex mf c0 arts).1.zip arts,
        p.1 = p.2 ∨ ∃ rt, f p.2.source_url = some rt ∧
          p.1 = applyMeta p.2 (ex rt p.2.source_url) := by
  intro arts
  induction arts with
  | nil =>
    intro c0 h
    simp [enrichStep, h]
  | cons a rest ih =>
    intro c0 hc0
    unfold enrichStep
    split
    · rename_i hcond
      have hlt : c0 < mf := by
        simp only [Bool.and_eq_true, decide_eq_true_eq] at hcond
        exact hcond.2
      cases hf : f a.source_url with
      | some rt =>
        obtain ⟨ih1, ih2, ih3, ih4⟩ := ih (c0 + 1) hlt
        refine ⟨by simpa using ih1, ih2, ?_, ?_⟩
        · rw [List.zip_cons_cons, List.countP_cons]
          split <;> omega
        · intro p hp
          rw [List.zip_cons_cons, List.mem_cons] at hp
          rcases hp with hp | hp
          · subst hp
            exact Or.inr ⟨rt, hf, rfl⟩
          · exact ih4 p hp
      | none =>
        obtain ⟨ih1, ih2, ih3, ih4⟩ := ih c0 hc0
        refine ⟨by simpa using ih1, ih2, ?_, ?_⟩
        · rw [List.zip_cons_cons, List.countP_cons]
          split
          · rename_i hd
            simp only [decide_eq_true_eq] at hd
            exact absurd rfl hd
          · omega
        · intro p hp
          rw [List.zip_cons_cons, List.mem_cons] at hp
          rcases hp with hp | hp
          · subst hp
            exact Or.inl rfl
          · exact ih4 p hp
    · obtain ⟨ih1, ih2, ih3, ih4⟩ := ih c0 hc0
      refine ⟨by simpa using ih1, ih2, ?_, ?_⟩
      · rw [List.zip_cons_cons, List.countP_cons]
        split
        · rename_i hd
          simp only [decide_eq_true_eq] at hd
          exact absurd rfl hd
        · omega
      · intro p hp
        rw [List.zip_cons_cons, List.mem_cons] at hp
        rcases hp with hp | hp
        · subst hp
          exact Or.inl rfl
        · exact ih4 p hp

/-- C6: the enrichment pass preserves the number of articles; the
number of enrichments performed — and hence the number of modified
articles — is bounded by the global `max_fallback` budget (fewer when a
content fetch yields no text, since only a successful fetch consumes
budget); every modification is the fill of missing headline/summary
fields after a content fetch; and `applyMeta` never overwrites a truthy
provider value and touches no other field, so articles beyond the
budget pass through with their original fields. -/
theorem C6_enrichment_budget :
    ∀ (f : JVal → Option String) (ex : String → JVal → Meta) (mf : Nat)
      (arts : List Article),
      (enrich_with_html_fallback f ex arts mf).1.length = arts.length ∧
      (enrich_with_html_fallback f ex arts mf).2.1 ≤ mf ∧
      ((enrich_with_html_fallback f ex arts mf).1.zip arts).countP
          (fun p => decide (p.1 ≠ p.2)) ≤ mf ∧
      (∀ p ∈ (enrich_with_html_fallback f ex arts mf).1.zip arts,
        p.1 = p.2 ∨ ∃ rt, f p.2.source_url = some rt ∧
          p.1 = applyMeta p.2 (ex rt p.2.source_url)) ∧
      ∀ (a : Article) (m : Meta),
        (truthy a.headline = true → (applyMeta a m).headline = a.headline) ∧
        (truthy a.summary = true → (applyMeta a m).summary = a.summary) ∧
        (applyMeta a m).title = a.title ∧
        (applyMeta a m).url = a.url ∧
        (applyMeta a m).source = a.source ∧
        (applyMeta a m).snippet = a.snippet ∧
        (applyMeta a m).published = a.published ∧
        (applyMeta a m).raw = a.raw ∧
        (applyMeta a m).source_url = a.source_url := by
  intro f ex mf arts
  obtain ⟨h1, h2, h3, h4⟩ := enrichStep_aux f ex mf arts 0 (Nat.zero_le mf)
  refine ⟨h1, h2, by simpa using h3, h4, ?_⟩
  intro a m
  refine ⟨?_, ?_, rfl, rfl, rfl, rfl, rfl, rfl, rfl⟩
  · intro h
    simp [applyMeta, orV, h]
  · intro h
    simp [applyMeta, orV, h]

/-- C6 (witness): with budget 3 and five articles each lacking headline
and summary but carrying a source URL, at most 3 are enriched, the
output has 5 articles, and a truthy provider headline survives
`applyMeta`. -/
theorem C6_witness :
    (enrich_with_html_fallback fetchAlways extractConst
        (List.replicate 5 artIncomplete) 3).1.length = 5 ∧
    (enrich_with_html_fallback fetchAlways extractConst
        (List.replicate 5 artIncomplete) 3).2.1 ≤ 3 ∧
    ((enrich_with_html_fallback fetchAlways extractConst
        (List.replicate 5 artIncomplete) 3).1.zip
          (List.replicate 5 artIncomplete)).countP
        (fun p => decide (p.1 ≠ p.2)) ≤ 3 ∧
    (applyMeta { artIncomplete with headline := .jstr "H" }
        (extractConst "x" (.jstr "u"))).headline = .jstr "H" := by
  obtain ⟨h1, h2, h3, -, h5⟩ := C6_enrichment_budget fetchAlways extractConst 3
    (List.replicate 5 artIncomplete)
  refine ⟨by rw [h1]; rfl, h2, h3, ?_⟩
  exact (h5 { artIncomplete with headline := .jstr "H" }
    (extractConst "x" (.jstr "u"))).1 rfl

/-- Inversion of a successful `Except` bind. -/
theorem bindE_ok {α β : Type} (x : Except Unit α) (f : α → Except Unit β)
    (b : β) (h : (x >>= f) = .ok b) : ∃ a, x = .ok a ∧ f a = .ok b := by
  cases x with
  | error e => exact absurd h (by simp [Bind.bind, Except.bind])
  | ok a => exact ⟨a, rfl, h⟩

/-- Every element of a successful `mapM` run comes from applying the
function to some input element. -/
theorem mapM_ok_mem {α β : Type} (f : α → Except Unit β) :
    ∀ (l : List α) (ys : List β), l.mapM f = .ok ys →
      ∀ b ∈ ys, ∃ x ∈ l, f x = .ok b := by
  intro l
  induction l with
  | nil =>
    intro ys h b hb
    rw [List.mapM_nil] at h
    cases h
    simp at hb
  | cons x xs ih =>
    intro ys h b hb
    rw [List.mapM_cons] at h
    obtain ⟨y, hy, h⟩ := bindE_ok _ _ _ h
    obtain ⟨zs, hzs, h⟩ := bindE_ok _ _ _ h
    cases h
    rw [List.mem_cons] at hb
    rcases hb with hb | hb
    · exact ⟨x, by simp, by rw [hy, hb]⟩
    · obtain ⟨x', hx', hfx'⟩ := ih zs hzs b hb
      exact ⟨x', by simp [hx'], hfx'⟩

/-- A SerpApi item dict never carries a `source_url` key. -/
theorem serpItem_source_url (i : JVal) (a : Article)
    (h : serpItem i = .ok a) : a.source_url = .jnull := by
  unfold serpItem at h
  repeat obtain ⟨_, -, h⟩ := bindE_ok _ _ _ h
  dsimp only at h
  split at h <;>
    (repeat obtain ⟨_, -, h⟩ := bindE_ok _ _ _ h) <;> (cases h; rfl)

/-- A Bing item dict never carries a `source_url` key. -/
theorem bingItem_source_url (i : JVal) (a : Article)
    (h : bingItem i = .ok a) : a.source_url = .jnull := by
  unfold bingItem at h
  repeat obtain ⟨_, -, h⟩ := bindE_ok _ _ _ h
  dsimp only at h
  split at h <;>
    (repeat obtain ⟨_, -, h⟩ := bindE_ok _ _ _ h) <;> (cases h; rfl)

/-- A GDELT item dict never carries a `source_url` key. -/
theorem gdeltItem_source_url (i : JVal) (a : Article)
    (h : gdeltItem i = .ok a) : a.source_url = .jnull := by
  unfold gdeltItem at h
  repeat obtain ⟨_, -, h⟩ := bindE_ok _ _ _ h
  cases h
  rfl

/-- The GDELT date fix-up touches only `published`. -/
theorem gdeltConvDate_source_url (pg : String → Option String) (a : Article) :
    (gdeltConvDate pg a).source_url = a.source_url := by
  unfold gdeltConvDate
  repeat' split
  all_goals rfl

/-- Every article the SerpApi adapter emits lacks a `source_url`. -/
theorem serpapi_no_source_url (key : Option String) (resp : Except Unit JVal)
    (n : Nat) : ∀ a ∈ fetch_news_serpapi key resp n, a.source_url = .jnull := by
  intro a ha
  unfold fetch_news_serpapi at ha
  split at ha
  · simp at ha
  · cases resp with
    | error e => simp [Except.bind, orEmpty] at ha
    | ok d =>
      cases hb : serpBody d n with
      | error e =>
        rw [show Except.bind (Except.ok d) (fun d => serpBody d n)
              = serpBody d n from rfl, hb] at ha
        simp [orEmpty] at ha
      | ok l =>
        rw [show Except.bind (Except.ok d) (fun d => serpBody d n)
              = serpBody d n from rfl, hb] at ha
        simp only [orEmpty] at ha
        unfold serpBody at hb
        obtain ⟨x1, -, hb⟩ := bindE_ok _ _ _ hb
        obtain ⟨x2, -, hb⟩ := bindE_ok _ _ _ hb
        obtain ⟨x3, -, hb⟩ := bindE_ok _ _ _ hb
        obtain ⟨items, -, hb⟩ := bindE_ok _ _ _ hb
        obtain ⟨x, -, hx⟩ := mapM_ok_mem _ items l hb a ha
        exact serpItem_source_url _ _ hx

/-- Every article the Bing adapter emits lacks a `source_url`. -/
theorem bing_no_source_url (key : Option String) (resp : Except Unit JVal)
    (n : Nat) : ∀ a ∈ fetch_news_bing key resp n, a.source_url = .jnull := by
  intro a ha
  unfold fetch_news_bing at ha
  split at ha
  · simp at ha
  · cases resp with
    | error e => simp [Except.bind, orEmpty] at ha
    | ok d =>
      cases hb : bingBody d n with
      | error e =>
        rw [show Except.bind (Except.ok d) (fun d => bingBody d n)
              = bingBody d n from rfl, hb] at ha
        simp [orEmpty] at ha
      | ok l =>
        rw [show Except.bind (Except.ok d) (fun d => bingBody d n)
              = bingBody d n from rfl, hb] at ha
        simp only [orEmpty] at ha
        unfold bingBody at hb
        obtain ⟨x1, -, hb⟩ := bindE_ok _ _ _ hb
        obtain ⟨items, -, hb⟩ := bindE_ok _ _ _ hb
        obtain ⟨x, -, hx⟩ := mapM_ok_mem _ items l hb a ha
        exact bingItem_source_url _ _ hx

/-- Every article the GDELT adapter emits lacks a `source_url`. -/
theorem gdelt_no_source_url (pg : String → Option String)
    (resp : Except Unit JVal) (n : Nat) :
    ∀ a ∈ fetch_news_gdelt pg resp n, a.source_url = .jnull := by
  intro a ha
  unfold fetch_news_gdelt at ha
  cases resp with
  | error e => simp [Except.bind, orEmpty] at ha
  | ok d =>
    cases hb : gdeltBody pg d n with
    | error e =>
      rw [show Except.bind (Except.ok d) (fun d => gdeltBody pg d n)
            = gdeltBody pg d n from rfl, hb] at ha
      simp [orEmpty] at ha
    | ok l =>
      rw [show Except.bind (Except.ok d) (fun d => gdeltBody pg d n)
            = gdeltBody pg d n from rfl, hb] at ha
      simp only [orEmpty] at ha
      unfold gdeltBody at hb
      obtain ⟨x1, -, hb⟩ := bindE_ok _ _ _ hb
      obtain ⟨items, -, hb⟩ := bindE_ok _ _ _ hb
      obtain ⟨base, hbase, hb⟩ := bindE_ok _ _ _ hb
      cases hb
      rw [List.mem_map] at ha
      obtain ⟨b, hbm, hconv⟩ := ha
      obtain ⟨x, -, hx⟩ := mapM_ok_mem _ items base hbase b hbm
      rw [← hconv, gdeltConvDate_source_url]
      exact gdeltItem_source_url _ _ hx

/-- On articles without a usable source URL the enrichment pass is the
identity and performs no content fetch. -/
theorem enrichStep_no_source_url (f : JVal → Option String)
    (ex : String → JVal → Meta) (mf : Nat) :
    ∀ (arts : List Article) (c : Nat),
      (∀ a ∈ arts, truthy a.source_url = false) →
      enrichStep f ex mf c arts = (arts, c, []) := by
  intro arts
  induction arts with
  | nil => intro c _; rfl
  | cons a rest ih =>
    intro c h
    have ha : truthy a.source_url = false := h a (by simp)
    have hrest := ih c fun x hx => h x (by simp [hx])
    unfold enrichStep
    rw [ha]
    simp [hrest]

/-- If every tier emits `source_url`-free articles, so does the chain. -/
theorem tier3_no_source_url (w : NewsWorld) (m : Nat)
    (hs : ∀ n a, a ∈ w.serp n → a.source_url = .jnull)
    (hb : ∀ n a, a ∈ w.bing n → a.source_url = .jnull)
    (hg : ∀ n a, a ∈ w.gdelt n → a.source_url = .jnull) :
    ∀ a ∈ (tier3 w m).1, a.source_url = .jnull := by
  have h2 : ∀ a ∈ (tier2 w m).1, a.source_url = .jnull := by
    intro a ha
    unfold tier2 at ha
    split at ha
    · rw [List.mem_append] at ha
      rcases ha with ha | ha
      · exact hs _ a ha
      · exact hb _ a ha
    · exact hs _ a ha
  intro a ha
  unfold tier3 at ha
  split at ha
  · rw [List.mem_append] at ha
    rcases ha with ha | ha
    · exact h2 a ha
    · exact hg _ a ha
  · exact h2 a ha

/-- C10: the tier adapters only ever set the `title`/`url`/`snippet`
family of keys, never `headline`/`summary`/`source_url`, while the
enrichment condition tests `source_url`; hence the enrichment pass
inside `fetch_company_news_multi` is the identity on every tier-chain
output and performs no content fetch. -/
theorem C10_tier_enrichment_identity :
    ∀ (f : JVal → Option String) (ex : String → JVal → Meta) (mf : Nat)
      (k1 k2 : Option String) (r1 r2 r3 : Except Unit JVal)
      (pg : String → Option String) (q1 q2 q3 : Nat) (w : NewsWorld)
      (maxResults : Nat) (useCache : Bool),
      enrichStep f ex mf 0
          (fetch_news_serpapi k1 r1 q1 ++ fetch_news_bing k2 r2 q2 ++
            fetch_news_gdelt pg r3 q3) =
        (fetch_news_serpapi k1 r1 q1 ++ fetch_news_bing k2 r2 q2 ++
          fetch_news_gdelt pg r3 q3, 0, []) ∧
      ((∀ n a, a ∈ w.serp n → a.source_url = .jnull) →
        (∀ n a, a ∈ w.bing n → a.source_url = .jnull) →
        (∀ n a, a ∈ w.gdelt n → a.source_url = .jnull) →
        (fetch_company_news_multi w maxResults useCache).2.2 = []) := by
  intro f ex mf k1 k2 r1 r2 r3 pg q1 q2 q3 w maxResults useCache
  constructor
  · apply enrichStep_no_source_url
    intro a ha
    rw [List.mem_append] at ha
    rcases ha with ha | ha
    · rw [List.mem_append] at ha
      rcases ha with ha | ha
      · rw [serpapi_no_source_url k1 r1 q1 a ha]
        rfl
      · rw [bing_no_source_url k2 r2 q2 a ha]
        rfl
    · rw [gdelt_no_source_url pg r3 q3 a ha]
      rfl
  · intro hs hb hg
    have hid : ∀ n : Nat,
        enrich_with_html_fallback w.fetchText w.extractMeta
          (tier3 w n).1 3 = ((tier3 w n).1, 0, []) := by
      intro n
      apply enrichStep_no_source_url
      intro a ha
      rw [tier3_no_source_url w n hs hb hg a ha]
      rfl
    have hfr : ∀ uc : Bool, (freshNews w maxResults uc).2.2 = [] := by
      intro uc
      unfold freshNews
      split <;> rw [hid maxResults]
    unfold fetch_company_news_multi
    cases useCache
    · exact hfr false
    · cases load_cache w.cacheFile w.now 24 with
      | none => exact hfr true
      | some p =>
        by_cases hp : truthy p = true
        · simp [hp]
        · simp only [Bool.not_eq_true] at hp
          simp [hp, hfr true]

/-- C10 (witness): the identity property at a concrete world whose tiers
return default-field articles. -/
theorem C10_witness : (fetch_company_news_multi wQuota 5 true).2.2 = [] := by
  refine (C10_tier_enrichment_identity (fun _ => none) (fun _ _ => {}) 3
    none none (.ok .jnull) (.ok .jnull) (.ok .jnull) (fun _ => none) 5 5 5
    wQuota 5 true).2 ?_ ?_ ?_
  · intro n a ha
    simp only [wQuota] at ha
    simp at ha
    subst ha
    rfl
  · intro n a ha
    simp only [wQuota] at ha
    simp at ha
    subst ha
    rfl
  · intro n a ha
    simp only [wQuota] at ha
    simp at ha
    subst ha
    rfl

/-- Inversion of a successful trial construction: the record's `nct`
field is exactly the extracted NCT id and `matched_variant` is the
variant processed. -/
theorem mkTrial_ok (nowIso variant : String) (s : JVal) (t : Trial)
    (h : mkTrial nowIso variant s = .ok t) :
    nctOfE s = .ok t.nct ∧ t.matched_variant = variant := by
  unfold mkTrial at h
  obtain ⟨protocol, hp, h⟩ := bindE_ok _ _ _ h
  obtain ⟨nct, hn, h⟩ := bindE_ok _ _ _ h
  repeat obtain ⟨_, -, h⟩ := bindE_ok _ _ _ h
  cases h
  exact ⟨hn, rfl⟩

/-- Inversion of a skipped study: either it contributes no NCT key, or
its key was already seen. -/
theorem processStudy_ok_none (nowIso variant : String) (s : JVal)
    (seen : List JVal)
    (h : processStudy nowIso variant s seen = .ok none) :
    studyKeyOf s = none ∨ ∃ k, studyKeyOf s = some k ∧ k ∈ seen := by
  unfold processStudy at h
  split at h
  · rename_i hobj
    left
    unfold studyKeyOf
    rw [if_pos hobj]
  · rename_i hobj
    obtain ⟨nct, hn, h⟩ := bindE_ok _ _ _ h
    split at h
    · rename_i htr
      left
      unfold studyKeyOf
      rw [if_neg hobj, hn]
      simp only [Bool.not_eq_true'] at htr
      simp [htr]
    · rename_i htr
      simp only [Bool.not_eq_true] at htr
      rw [Bool.not_eq_false'] at htr
      split at h
      · exact nomatch h
      · split at h
        · rename_i hmem
          right
          refine ⟨nct, ?_, hmem⟩
          unfold studyKeyOf
          rw [if_neg hobj, hn]
          simp [htr]
        · obtain ⟨t, ht, h⟩ := bindE_ok _ _ _ h
          exact nomatch h

/-- Inversion of a successfully normalized study: its key is the
record's `nct`, was not yet seen, and is recorded as seen. -/
theorem processStudy_ok_some (nowIso variant : String) (s : JVal)
    (seen : List JVal) (t : Trial) (seen' : List JVal)
    (h : processStudy nowIso variant s seen = .ok (some (t, seen'))) :
    studyKeyOf s = some t.nct ∧ t.nct ∉ seen ∧ seen' = t.nct :: seen ∧
      mkTrial nowIso variant s = .ok t := by
  unfold processStudy at h
  split at h
  · exact nomatch h
  · rename_i hobj
    obtain ⟨nct, hn, h⟩ := bindE_ok _ _ _ h
    split at h
    · exact nomatch h
    · rename_i htr
      simp only [Bool.not_eq_true] at htr
      rw [Bool.not_eq_false'] at htr
      split at h
      · exact nomatch h
      · split at h
        · exact nomatch h
        · rename_i hmem
          obtain ⟨t', ht', h⟩ := bindE_ok _ _ _ h
          simp only [pure, Except.pure, Except.ok.injEq, Option.some.injEq,
            Prod.mk.injEq] at h
          obtain ⟨ht0, hs0⟩ := h
          subst ht0
          obtain ⟨hkey, -⟩ := mkTrial_ok nowIso variant s t' ht'
          have hnct : nct = t'.nct := by
            rw [hn] at hkey
            exact Except.ok.inj hkey
          subst hnct
          refine ⟨?_, hmem, hs0.symm, ht'⟩
          unfold studyKeyOf
          rw [if_neg hobj, hn]
          simp [htr]

/-- Unfolding of `firstHit` on a cons cell. -/
theorem firstHit_cons (v : String) (s : JVal) (fl : List (String × JVal))
    (k : JVal) :
    firstHit ((v, s) :: fl) k =
      if studyKeyOf s = some k then some (v, s) else firstHit fl k := by
  by_cases hk : studyKeyOf s = some k <;>
    simp [firstHit, List.find?_cons, hk]

/-- Invariant of the study loop: candidate NCT keys are distinct and
disjoint from `seen`, every candidate is the normalization of the first
study in processing order carrying its key, and every unseen key that
occurs in the input yields a candidate. -/
theorem normCore_invariant (nowIso : String) :
    ∀ (fl : List (String × JVal)) (seen : List JVal) (cands : List Trial),
      normCore nowIso fl seen = .ok cands →
      (cands.map (fun t => t.nct)).Nodup ∧
      (∀ t ∈ cands, t.nct ∉ seen) ∧
      (∀ t ∈ cands, ∃ v s, firstHit fl t.nct = some (v, s) ∧
         mkTrial nowIso v s = .ok t ∧ t.matched_variant = v) ∧
      (∀ k, k ∉ seen → (∃ p ∈ fl, studyKeyOf p.2 = some k) →
         ∃ t ∈ cands, t.nct = k) := by
  intro fl
  induction fl with
  | nil =>
    intro seen cands h
    unfold normCore at h
    cases h
    refine ⟨by simp, by simp, by simp, ?_⟩
    rintro k - ⟨p, hp, -⟩
    simp at hp
  | cons vs rest ih =>
    obtain ⟨v, s⟩ := vs
    intro seen cands h
    unfold normCore at h
    obtain ⟨r, hr, h⟩ := bindE_ok _ _ _ h
    cases r with
    | none =>
      obtain ⟨ih1, ih2, ih3, ih4⟩ := ih seen cands h
      have hskip := processStudy_ok_none nowIso v s seen hr
      refine ⟨ih1, ih2, ?_, ?_⟩
      · intro t ht
        obtain ⟨v', s', hf, hmk, hmv⟩ := ih3 t ht
        have hne : ¬(studyKeyOf s = some t.nct) := by
          rcases hskip with hnone | ⟨k0, hk0, hk0s⟩
          · rw [hnone]
            exact fun hh => nomatch hh
          · rw [hk0]
            intro hcontra
            have hke : k0 = t.nct := Option.some.inj hcontra
            exact ih2 t ht (hke ▸ hk0s)
        rw [firstHit_cons, if_neg hne]
        exact ⟨v', s', hf, hmk, hmv⟩
      · rintro k hk ⟨p, hp, hkey⟩
        rw [List.mem_cons] at hp
        rcases hp with hp | hp
        · subst hp
          rcases hskip with hnone | ⟨k0, hk0, hk0s⟩
          · rw [hnone] at hkey
            exact nomatch hkey
          · rw [hk0] at hkey
            have hke : k0 = k := Option.some.inj hkey
            exact absurd (hke ▸ hk0s) hk
        · exact ih4 k hk ⟨p, hp, hkey⟩
    | some ts =>
      obtain ⟨t0, seen2⟩ := ts
      obtain ⟨tail, htail, h⟩ := bindE_ok _ _ _ h
      simp only [pure, Except.pure, Except.ok.injEq] at h
      subst h
      obtain ⟨hkey0, hnotseen, hseen2, hmk0⟩ :=
        processStudy_ok_some nowIso v s seen t0 seen2 hr
      subst hseen2
      obtain ⟨ih1, ih2, ih3, ih4⟩ := ih (t0.nct :: seen) tail htail
      obtain ⟨-, hmv0⟩ := mkTrial_ok nowIso v s t0 hmk0
      refine ⟨?_, ?_, ?_, ?_⟩
      · rw [List.map_cons, List.nodup_cons]
        refine ⟨?_, ih1⟩
        rw [List.mem_map]
        rintro ⟨t, ht, hteq⟩
        exact ih2 t ht (by rw [hteq]; exact List.mem_cons_self _ _)
      · intro t ht
        rw [List.mem_cons] at ht
        rcases ht with ht | ht
        · subst ht
          exact hnotseen
        · intro hmem
          exact ih2 t ht (List.mem_cons_of_mem _ hmem)
      · intro t ht
        rw [List.mem_cons] at ht
        rcases ht with ht | ht
        · subst ht
          exact ⟨v, s, by rw [firstHit_cons, if_pos hkey0], hmk0, hmv0⟩
        · obtain ⟨v', s', hf, hmk, hmv⟩ := ih3 t ht
          have hne : ¬(studyKeyOf s = some t.nct) := by
            rw [hkey0]
            intro hcontra
            have heq : t0.nct = t.nct := Option.some.inj hcontra
            exact ih2 t ht (by rw [← heq]; exact List.mem_cons_self _ _)
          rw [firstHit_cons, if_neg hne]
          exact ⟨v', s', hf, hmk, hmv⟩
      · rintro k hk ⟨p, hp, hkeyp⟩
        rw [List.mem_cons] at hp
        by_cases hkt : k = t0.nct
        · exact ⟨t0, List.mem_cons_self _ _, hkt.symm⟩
        · have hk2 : k ∉ t0.nct :: seen := by
            rw [List.mem_cons]
            rintro (hc | hc)
            · exact hkt hc
            · exact hk hc
          rcases hp with hp | hp
          · subst hp
            rw [hkey0] at hkeyp
            exact absurd (Option.some.inj hkeyp) fun hh => hkt hh.symm
          · obtain ⟨t, ht, htk⟩ := ih4 k hk2 ⟨p, hp, hkeyp⟩
            exact ⟨t, List.mem_cons_of_mem _ ht, htk⟩

/-- C5: whenever `normalize_trials` succeeds on raw study lists gathered
under multiple name variants, the candidate list has exactly one record
per distinct NCT id (keys are pairwise distinct, and every study that
carries a truthy NCT id is represented); each retained record is the
normalization of the first study in processing order with that id, so
its `matched_variant` is the variant under which the trial was first
seen, and later duplicates are dropped silently. -/
theorem C5_trials_dedup_first_wins :
    ∀ (nowIso : String) (input : TrialsInput) (company : String)
      (out : TrialsOut) (fl : List (String × JVal)),
      normalize_trials nowIso input company = .ok out →
      flattenStudies (trialsPairs input company) = .ok fl →
      (out.candidates.map (fun t => t.nct)).Nodup ∧
      (∀ t ∈ out.candidates, ∃ v s, firstHit fl t.nct = some (v, s) ∧
         mkTrial nowIso v s = .ok t ∧ t.matched_variant = v) ∧
      (∀ k p, p ∈ fl → studyKeyOf p.2 = some k →
         ∃ t ∈ out.candidates, t.nct = k) := by
  intro nowIso input company out fl hnorm hflat
  unfold normalize_trials at hnorm
  rw [hflat] at hnorm
  obtain ⟨fl2, hfl2, hnorm⟩ := bindE_ok _ _ _ hnorm
  have hfl3 : fl = fl2 := Except.ok.inj hfl2
  subst hfl3
  obtain ⟨cands, hcore, hnorm⟩ := bindE_ok _ _ _ hnorm
  simp only [pure, Except.pure, Except.ok.injEq] at hnorm
  subst hnorm
  obtain ⟨h1, h2, h3, h4⟩ := normCore_invariant nowIso fl [] cands hcore
  refine ⟨h1, h3, ?_⟩
  intro k p hp hkey
  exact h4 k (by simp) ⟨p, hp, hkey⟩

/-- C5 (witness): two variant queries overlapping on NCT1 produce
exactly one NCT1 record, with `matched_variant` of the first-seen
variant; NCT2 appears under its own variant. -/
theorem C5_witness :
    (trialsOutX.candidates.map (fun t => t.nct)).Nodup ∧
    (∀ t ∈ trialsOutX.candidates, ∃ v s,
       firstHit trialsFlatX t.nct = some (v, s) ∧
       mkTrial "now" v s = .ok t ∧ t.matched_variant = v) ∧
    (∀ k p, p ∈ trialsFlatX → studyKeyOf p.2 = some k →
       ∃ t ∈ trialsOutX.candidates, t.nct = k) :=
  C5_trials_dedup_first_wins "now" trialsInputX "Pfizer" trialsOutX
    trialsFlatX rfl rfl
